import Mathlib

/-!
Verification of the fraction value type implemented in src/fracao.py.

The class stores two integer fields, normalizes the sign into the numerator
at construction, and reduces by the greatest common divisor.  Python integers
are arbitrary precision, so the fields are modelled as Int; Python floor
division (the // operator) is Int.fdiv; raising ValueError is modelled by
returning none.
-/

/-- The two integer fields stored by a Fracao object (self.num, self.den). -/
structure Fracao where
  num : Int
  den : Int
deriving DecidableEq

namespace Fracao

/-- The Euclidean loop inside Fracao.mdc: replace the pair (x, y) by
(y, x mod y) until y is zero, then return x.  Both arguments are the
absolute values taken in mdc, hence Nat. -/
def mdcLoop (x y : Nat) : Nat :=
  if _h : y = 0 then x else mdcLoop y (x % y)
termination_by y
decreasing_by exact Nat.mod_lt x (Nat.pos_of_ne_zero _h)

/-- Fracao.mdc: Euclidean algorithm on abs(self.num) and abs(self.den). -/
def mdc (f : Fracao) : Nat :=
  mdcLoop f.num.natAbs f.den.natAbs

/-- Fracao.simplifica: when the mdc exceeds 1, floor-divide both fields by
it (Python //= on int is Int.fdiv); otherwise leave the fields unchanged.
The Python method returns self; here the updated record is returned. -/
def simplifica (f : Fracao) : Fracao :=
  let divisor := f.mdc
  if 1 < divisor then
    { num := f.num.fdiv (divisor : Int), den := f.den.fdiv (divisor : Int) }
  else f

/-- The constructor Fracao.__init__: reject a zero denominator (the raised
ValueError is the none case), store the fields, move any sign of the
denominator onto the numerator, then call simplifica. -/
def init (num den : Int) : Option Fracao :=
  if den = 0 then none
  else
    let f : Fracao := { num := num, den := den }
    let f : Fracao := if f.den < 0 then { num := -f.num, den := -f.den } else f
    some f.simplifica

/-- Fracao.__add__: (a/b) + (c/d) = (ad + bc) / (bd), built through the
normalizing constructor. -/
def add (a b : Fracao) : Option Fracao :=
  init (a.num * b.den + a.den * b.num) (a.den * b.den)

/-- Fracao.__iadd__: overwrite self.num with a.num*b.den + a.den*b.num,
multiply self.den by b.den, then return self.simplifica().  The mutated
receiver is modelled as the returned record. -/
def iadd (a b : Fracao) : Fracao :=
  simplifica { num := a.num * b.den + a.den * b.num, den := a.den * b.den }

/-- Fracao.__sub__: (a/b) - (c/d) = (ad - bc) / (bd). -/
def sub (a b : Fracao) : Option Fracao :=
  init (a.num * b.den - a.den * b.num) (a.den * b.den)

/-- Fracao.__mul__: (a/b) * (c/d) = (ac) / (bd). -/
def mul (a b : Fracao) : Option Fracao :=
  init (a.num * b.num) (a.den * b.den)

/-- Fracao.__truediv__: raise (none) when the divisor numerator is zero,
otherwise (a/b) / (c/d) = (ad) / (bc). -/
def div (a b : Fracao) : Option Fracao :=
  if b.num = 0 then none
  else init (a.num * b.den) (a.den * b.num)

/-- Fracao.__eq__: field-by-field comparison. -/
def eq (a b : Fracao) : Bool :=
  a.num == b.num && a.den == b.den

/-- Fracao.__ne__: not (self == other). -/
def ne (a b : Fracao) : Bool :=
  ! eq a b

/-- Fracao.__lt__: cross-multiplication comparison. -/
def lt (a b : Fracao) : Bool :=
  decide (a.num * b.den < b.num * a.den)

/-- Fracao.__gt__: cross-multiplication comparison. -/
def gt (a b : Fracao) : Bool :=
  decide (a.num * b.den > b.num * a.den)

/-- Fracao.__le__: cross-multiplication comparison. -/
def le (a b : Fracao) : Bool :=
  decide (a.num * b.den ≤ b.num * a.den)

/-- Fracao.__ge__: cross-multiplication comparison. -/
def ge (a b : Fracao) : Bool :=
  decide (a.num * b.den ≥ b.num * a.den)

/-- Fracao.__str__: "0" when the numerator is zero, the bare numerator when
the denominator is 1, and "num/den" otherwise. -/
def toStr (f : Fracao) : String :=
  if f.num = 0 then "0"
  else if f.den = 1 then toString f.num
  else toString f.num ++ "/" ++ toString f.den

/-- Canonical form as stated by the spec: positive denominator and coprime
absolute numerator and denominator. -/
def Canonical (f : Fracao) : Prop :=
  0 < f.den ∧ Nat.gcd f.num.natAbs f.den.natAbs = 1

instance (f : Fracao) : Decidable (Canonical f) :=
  inferInstanceAs (Decidable (0 < f.den ∧ Nat.gcd f.num.natAbs f.den.natAbs = 1))

/-- The Euclidean loop computes the greatest common divisor. -/
theorem mdcLoop_gcd (x y : Nat) : mdcLoop x y = Nat.gcd x y := by
  rw [mdcLoop]
  split
  · rename_i h; subst h; simp
  · rename_i h
    rw [mdcLoop_gcd y (x % y), Nat.gcd_comm y (x % y), ← Nat.gcd_rec y x, Nat.gcd_comm y x]
termination_by y
decreasing_by exact Nat.mod_lt x (Nat.pos_of_ne_zero (by assumption))

/-- mdc is the gcd of the absolute values of the two fields. -/
theorem mdc_gcd (f : Fracao) : f.mdc = Nat.gcd f.num.natAbs f.den.natAbs := by
  unfold mdc
  exact mdcLoop_gcd _ _

/-- mdc divides the numerator. -/
theorem mdc_dvd_num (f : Fracao) : (f.mdc : Int) ∣ f.num := by
  rw [mdc_gcd]
  exact dvd_trans (Int.natCast_dvd_natCast.mpr (Nat.gcd_dvd_left _ _))
    (Int.natAbs_dvd.mpr dvd_rfl)

/-- mdc divides the denominator. -/
theorem mdc_dvd_den (f : Fracao) : (f.mdc : Int) ∣ f.den := by
  rw [mdc_gcd]
  exact dvd_trans (Int.natCast_dvd_natCast.mpr (Nat.gcd_dvd_right _ _))
    (Int.natAbs_dvd.mpr dvd_rfl)

/-- simplifica never changes the rational value represented by the fields. -/
theorem simplifica_cross (f : Fracao) :
    f.simplifica.num * f.den = f.num * f.simplifica.den := by
  unfold simplifica
  by_cases h1 : 1 < f.mdc
  · simp only [if_pos h1]
    have hgz : (f.mdc : Int) ≠ 0 := by
      exact_mod_cast Nat.pos_iff_ne_zero.mp (by omega)
    obtain ⟨n0, hn0⟩ := mdc_dvd_num f
    obtain ⟨d0, hd0⟩ := mdc_dvd_den f
    simp only [hn0, hd0, Int.mul_fdiv_cancel_left _ hgz]
    ring
  · simp only [if_neg h1]

/-- simplifica of a record with a positive denominator is canonical. -/
theorem simplifica_canonical (f : Fracao) (hden : 0 < f.den) :
    Canonical f.simplifica := by
  unfold simplifica
  by_cases h1 : 1 < f.mdc
  · simp only [if_pos h1]
    have hgpos : 0 < f.mdc := by omega
    have hgz : (f.mdc : Int) ≠ 0 := by exact_mod_cast Nat.pos_iff_ne_zero.mp hgpos
    have hgIpos : (0 : Int) < (f.mdc : Int) := by exact_mod_cast hgpos
    obtain ⟨n0, hn0⟩ := mdc_dvd_num f
    obtain ⟨d0, hd0⟩ := mdc_dvd_den f
    have hdpos : (0 : Int) < (f.mdc : Int) * d0 := hd0 ▸ hden
    have hd0pos : 0 < d0 := by nlinarith
    constructor
    · show 0 < f.den.fdiv (f.mdc : Int)
      rw [hd0, Int.mul_fdiv_cancel_left _ hgz]
      exact hd0pos
    · simp only [hn0, hd0, Int.mul_fdiv_cancel_left _ hgz]
      have habs_n : f.num.natAbs = f.mdc * n0.natAbs := by
        rw [hn0, Int.natAbs_mul, Int.natAbs_ofNat]
      have habs_d : f.den.natAbs = f.mdc * d0.natAbs := by
        rw [hd0, Int.natAbs_mul, Int.natAbs_ofNat]
      have hkey : f.mdc * Nat.gcd n0.natAbs d0.natAbs = f.mdc * 1 := by
        rw [← Nat.gcd_mul_left, ← habs_n, ← habs_d, ← mdc_gcd f, Nat.mul_one]
      exact Nat.eq_of_mul_eq_mul_left hgpos hkey
  · simp only [if_neg h1]
    refine ⟨hden, ?_⟩
    have hpos : 0 < Nat.gcd f.num.natAbs f.den.natAbs :=
      Nat.gcd_pos_of_pos_right _ (Int.natAbs_pos.mpr (ne_of_gt hden))
    rw [mdc_gcd] at h1
    omega

/-- The constructor fails exactly on a zero denominator. -/
theorem init_none_iff (n d : Int) : init n d = none ↔ d = 0 := by
  unfold init
  split
  · simp_all
  · simp_all

/-- On a non-zero denominator the constructor returns a canonical value
representing the same rational number as the pair of arguments. -/
theorem init_some (n d : Int) (hd : d ≠ 0) :
    ∃ f, init n d = some f ∧ Canonical f ∧ f.num * d = n * f.den := by
  unfold init
  rw [if_neg hd]
  dsimp only
  by_cases hneg : d < 0
  · rw [if_pos hneg]
    refine ⟨_, rfl, simplifica_canonical _ (by simp; omega), ?_⟩
    have h := simplifica_cross ⟨-n, -d⟩
    dsimp only at h ⊢
    nlinarith [h]
  · rw [if_neg hneg]
    refine ⟨_, rfl, simplifica_canonical _ (by dsimp only; omega), ?_⟩
    exact simplifica_cross ⟨n, d⟩

/-- Two canonical values representing the same rational number have equal
fields: the canonical form is unique. -/
theorem canonical_ext (a b : Fracao) (ha : Canonical a) (hb : Canonical b)
    (h : a.num * b.den = b.num * a.den) : a = b := by
  obtain ⟨had, hag⟩ := ha
  obtain ⟨hbd, hbg⟩ := hb
  have hcop_a : Int.gcd a.den a.num = 1 := by
    unfold Int.gcd
    rw [Nat.gcd_comm]
    exact hag
  have hcop_b : Int.gcd b.den b.num = 1 := by
    unfold Int.gcd
    rw [Nat.gcd_comm]
    exact hbg
  have h1 : a.den ∣ b.den := by
    have hmul : a.den ∣ b.den * a.num := by
      have : a.den ∣ a.num * b.den := h ▸ dvd_mul_left a.den b.num
      rwa [mul_comm] at this
    exact Int.dvd_of_dvd_mul_left_of_gcd_one hmul hcop_a
  have h2 : b.den ∣ a.den := by
    have hmul : b.den ∣ a.den * b.num := by
      have : b.den ∣ b.num * a.den := h ▸ dvd_mul_left b.den a.num
      rwa [mul_comm] at this
    exact Int.dvd_of_dvd_mul_left_of_gcd_one hmul hcop_b
  have hden : a.den = b.den := Int.dvd_antisymm (le_of_lt had) (le_of_lt hbd) h1 h2
  have hnum : a.num = b.num := by
    apply mul_right_cancel₀ (show a.den ≠ 0 from ne_of_gt had)
    rw [← hden] at h
    exact h
  cases a
  cases b
  simp_all

/-- A canonical value with zero numerator has the fields 0 and 1. -/
theorem canonical_zero (f : Fracao) (hc : Canonical f) (h0 : f.num = 0) :
    f = ⟨0, 1⟩ := by
  obtain ⟨hd, hg⟩ := hc
  rw [h0] at hg
  simp only [Int.natAbs_zero, Nat.gcd_zero_left] at hg
  have hden : f.den = 1 := by omega
  cases f
  simp_all

/-- Fracao.__eq__ returns true exactly on equal fields. -/
theorem eq_true_iff_fields (a b : Fracao) :
    eq a b = true ↔ (a.num = b.num ∧ a.den = b.den) := by
  simp [eq]

/-- For canonical values, field equality coincides with cross-multiplication
equality. -/
theorem fields_iff_cross (a b : Fracao) (ha : Canonical a) (hb : Canonical b) :
    (a.num = b.num ∧ a.den = b.den) ↔ a.num * b.den = b.num * a.den := by
  constructor
  · rintro ⟨h1, h2⟩
    rw [h1, h2]
  · intro h
    have := canonical_ext a b ha hb h
    exact ⟨congrArg Fracao.num this, congrArg Fracao.den this⟩

end Fracao

open Fracao in
/-- C1: every construction with a non-zero denominator and every arithmetic
operation (add, subtract, multiply, divide, add-in-place) on canonical
operands yields a canonical value: positive denominator and coprime fields;
a zero numerator is stored as 0/1. -/
theorem claim_C1 (n d : Int) (a b : Fracao)
    (hd : d ≠ 0) (ha : Canonical a) (hb : Canonical b) :
    (∀ g, init n d = some g → Canonical g) ∧
    (∀ g, add a b = some g → Canonical g) ∧
    (∀ g, sub a b = some g → Canonical g) ∧
    (∀ g, mul a b = some g → Canonical g) ∧
    (∀ g, div a b = some g → Canonical g) ∧
    Canonical (iadd a b) ∧
    init 0 d = some ⟨0, 1⟩ := by
  have hden_ab : a.den * b.den ≠ 0 := mul_ne_zero (ne_of_gt ha.1) (ne_of_gt hb.1)
  refine ⟨?_, ?_, ?_, ?_, ?_, ?_, ?_⟩
  · intro g hg
    obtain ⟨f, hf, hfc, _⟩ := init_some n d hd
    rw [hf] at hg
    cases hg
    exact hfc
  · intro g hg
    obtain ⟨f, hf, hfc, _⟩ := init_some (a.num * b.den + a.den * b.num) (a.den * b.den) hden_ab
    rw [add, hf] at hg
    cases hg
    exact hfc
  · intro g hg
    obtain ⟨f, hf, hfc, _⟩ := init_some (a.num * b.den - a.den * b.num) (a.den * b.den) hden_ab
    rw [sub, hf] at hg
    cases hg
    exact hfc
  · intro g hg
    obtain ⟨f, hf, hfc, _⟩ := init_some (a.num * b.num) (a.den * b.den) hden_ab
    rw [mul, hf] at hg
    cases hg
    exact hfc
  · intro g hg
    rw [div] at hg
    split at hg
    · cases hg
    · rename_i hbn
      obtain ⟨f, hf, hfc, _⟩ :=
        init_some (a.num * b.den) (a.den * b.num) (mul_ne_zero (ne_of_gt ha.1) hbn)
      rw [hf] at hg
      cases hg
      exact hfc
  · exact simplifica_canonical _ (mul_pos ha.1 hb.1)
  · obtain ⟨f, hf, hfc, hcross⟩ := init_some 0 d hd
    rw [zero_mul] at hcross
    have hnum : f.num = 0 := by
      rcases mul_eq_zero.mp hcross with h | h
      · exact h
      · exact absurd h hd
    rw [hf, canonical_zero f hfc hnum]

/-- C1 witness at concrete inputs. -/
theorem claim_C1_witness :
    Fracao.Canonical (Fracao.iadd ⟨1, 2⟩ ⟨1, 4⟩) ∧ Fracao.init 0 2 = some ⟨0, 1⟩ :=
  ⟨(claim_C1 1 2 ⟨1, 2⟩ ⟨1, 4⟩ (by decide) (by decide) (by decide)).2.2.2.2.2.1,
   (claim_C1 1 2 ⟨1, 2⟩ ⟨1, 4⟩ (by decide) (by decide) (by decide)).2.2.2.2.2.2⟩

open Fracao in
/-- C2: for canonical values, equality is field equality, field equality is
numeric (cross-multiplication) equality, inequality is its negation, and
create(1,2) == create(5,10) while create(1,2) != create(1,4). -/
theorem claim_C2 (a b : Fracao) (ha : Canonical a) (hb : Canonical b) :
    (eq a b = true ↔ (a.num = b.num ∧ a.den = b.den)) ∧
    ((a.num = b.num ∧ a.den = b.den) ↔ a.num * b.den = b.num * a.den) ∧
    (ne a b = ! eq a b) ∧
    ((init 1 2).bind (fun x => (init 5 10).map (fun y => eq x y)) = some true) ∧
    ((init 1 2).bind (fun x => (init 1 4).map (fun y => ne x y)) = some true) := by
  refine ⟨eq_true_iff_fields a b, fields_iff_cross a b ha hb, rfl, ?_, ?_⟩
  · have e1 : init 1 2 = some ⟨1, 2⟩ := by
      simp [init, simplifica, mdc, mdcLoop_gcd]
    have e2 : init 5 10 = some ⟨1, 2⟩ := by
      simp [init, simplifica, mdc, mdcLoop_gcd]
    rw [e1, e2]
    decide
  · have e1 : init 1 2 = some ⟨1, 2⟩ := by
      simp [init, simplifica, mdc, mdcLoop_gcd]
    have e2 : init 1 4 = some ⟨1, 4⟩ := by
      simp [init, simplifica, mdc, mdcLoop_gcd]
    rw [e1, e2]
    decide

/-- C2 witness at concrete inputs. -/
theorem claim_C2_witness :
    Fracao.ne ⟨1, 2⟩ ⟨1, 3⟩ = ! Fracao.eq ⟨1, 2⟩ ⟨1, 3⟩ :=
  (claim_C2 ⟨1, 2⟩ ⟨1, 3⟩ (by decide) (by decide)).2.2.1

open Fracao in
/-- C3: construction fails exactly when the denominator is zero; for every
non-zero denominator it succeeds with a canonical value. -/
theorem claim_C3 (n d : Int) :
    (init n d = none ↔ d = 0) ∧
    (d ≠ 0 → ∃ f, init n d = some f ∧ Canonical f) := by
  refine ⟨init_none_iff n d, fun hd => ?_⟩
  obtain ⟨f, hf, hfc, _⟩ := init_some n d hd
  exact ⟨f, hf, hfc⟩

/-- C3 witness at concrete inputs. -/
theorem claim_C3_witness :
    (Fracao.init 3 0 = none ↔ (0 : Int) = 0) ∧
    ((0 : Int) ≠ 0 → ∃ f, Fracao.init 3 0 = some f ∧ Fracao.Canonical f) :=
  claim_C3 3 0

open Fracao in
/-- C4: division fails exactly when the divisor numerator is zero; otherwise
it returns a canonical value representing (a.num*b.den)/(a.den*b.num). -/
theorem claim_C4 (a b : Fracao) (ha : Canonical a) (hb : Canonical b) :
    (div a b = none ↔ b.num = 0) ∧
    (b.num ≠ 0 → ∃ f, div a b = some f ∧ Canonical f ∧
      f.num * (a.den * b.num) = (a.num * b.den) * f.den) := by
  constructor
  · rw [div]
    split
    · simp_all
    · rename_i hbn
      simp only [hbn, iff_false]
      intro hnone
      exact (init_none_iff _ _).mp hnone |> mul_ne_zero (ne_of_gt ha.1) hbn
  · intro hbn
    obtain ⟨f, hf, hfc, hcross⟩ :=
      init_some (a.num * b.den) (a.den * b.num) (mul_ne_zero (ne_of_gt ha.1) hbn)
    refine ⟨f, ?_, hfc, hcross⟩
    rw [div, if_neg hbn]
    exact hf

/-- C4 witness at concrete inputs. -/
theorem claim_C4_witness :
    (Fracao.div ⟨1, 2⟩ ⟨0, 1⟩ = none ↔ (⟨0, 1⟩ : Fracao).num = 0) ∧
    ((⟨0, 1⟩ : Fracao).num ≠ 0 → ∃ f, Fracao.div ⟨1, 2⟩ ⟨0, 1⟩ = some f ∧
      Fracao.Canonical f ∧ f.num * ((⟨1, 2⟩ : Fracao).den * (⟨0, 1⟩ : Fracao).num) =
        ((⟨1, 2⟩ : Fracao).num * (⟨0, 1⟩ : Fracao).den) * f.den) :=
  claim_C4 ⟨1, 2⟩ ⟨0, 1⟩ (by decide) (by decide)

/-- init on a positive denominator skips the sign flip and simplifies. -/
theorem init_of_pos (n d : Int) (hd : 0 < d) :
    Fracao.init n d = some (Fracao.simplifica ⟨n, d⟩) := by
  unfold Fracao.init
  rw [if_neg (by omega : ¬ d = 0)]
  dsimp only
  rw [if_neg (by omega : ¬ d < 0)]

open Fracao in
/-- C5: for canonical values, exactly one of lessThan, equals, greaterThan
holds, and lessOrEqual is the disjunction of lessThan and equals. -/
theorem claim_C5 (a b : Fracao) (ha : Canonical a) (hb : Canonical b) :
    (Fracao.lt a b = true ∨ Fracao.eq a b = true ∨ Fracao.gt a b = true) ∧
    ¬(Fracao.lt a b = true ∧ Fracao.eq a b = true) ∧
    ¬(Fracao.lt a b = true ∧ Fracao.gt a b = true) ∧
    ¬(Fracao.eq a b = true ∧ Fracao.gt a b = true) ∧
    Fracao.le a b = (Fracao.lt a b || Fracao.eq a b) := by
  have heq : Fracao.eq a b = true ↔ a.num * b.den = b.num * a.den :=
    (eq_true_iff_fields a b).trans (fields_iff_cross a b ha hb)
  have hlt : Fracao.lt a b = true ↔ a.num * b.den < b.num * a.den := by
    simp [Fracao.lt]
  have hgt : Fracao.gt a b = true ↔ b.num * a.den < a.num * b.den := by
    simp [Fracao.gt]
  refine ⟨?_, ?_, ?_, ?_, ?_⟩
  · rcases lt_trichotomy (a.num * b.den) (b.num * a.den) with h | h | h
    · exact Or.inl (hlt.mpr h)
    · exact Or.inr (Or.inl (heq.mpr h))
    · exact Or.inr (Or.inr (hgt.mpr h))
  · rintro ⟨h1, h2⟩
    rw [hlt] at h1
    rw [heq] at h2
    omega
  · rintro ⟨h1, h2⟩
    rw [hlt] at h1
    rw [hgt] at h2
    omega
  · rintro ⟨h1, h2⟩
    rw [heq] at h1
    rw [hgt] at h2
    omega
  · rw [Bool.eq_iff_iff]
    simp only [Fracao.le, Bool.or_eq_true, hlt, heq, decide_eq_true_eq]
    exact le_iff_lt_or_eq

/-- C5 witness at concrete inputs. -/
theorem claim_C5_witness :
    (Fracao.lt ⟨1, 2⟩ ⟨1, 4⟩ = true ∨ Fracao.eq ⟨1, 2⟩ ⟨1, 4⟩ = true ∨
      Fracao.gt ⟨1, 2⟩ ⟨1, 4⟩ = true) ∧
    ¬(Fracao.lt ⟨1, 2⟩ ⟨1, 4⟩ = true ∧ Fracao.eq ⟨1, 2⟩ ⟨1, 4⟩ = true) ∧
    ¬(Fracao.lt ⟨1, 2⟩ ⟨1, 4⟩ = true ∧ Fracao.gt ⟨1, 2⟩ ⟨1, 4⟩ = true) ∧
    ¬(Fracao.eq ⟨1, 2⟩ ⟨1, 4⟩ = true ∧ Fracao.gt ⟨1, 2⟩ ⟨1, 4⟩ = true) ∧
    Fracao.le ⟨1, 2⟩ ⟨1, 4⟩ = (Fracao.lt ⟨1, 2⟩ ⟨1, 4⟩ || Fracao.eq ⟨1, 2⟩ ⟨1, 4⟩) :=
  claim_C5 ⟨1, 2⟩ ⟨1, 4⟩ (by decide) (by decide)

open Fracao in
/-- C6: add-in-place never fails and leaves the receiver holding exactly the
fields of the value that add would return for the pre-mutation state; the
returned value is the mutated receiver itself, which is canonical. -/
theorem claim_C6 (a b : Fracao) (ha : Canonical a) (hb : Canonical b) :
    add a b = some (iadd a b) ∧ Canonical (iadd a b) := by
  have hpos : 0 < a.den * b.den := mul_pos ha.1 hb.1
  constructor
  · unfold Fracao.add Fracao.iadd
    exact init_of_pos _ _ hpos
  · exact simplifica_canonical _ hpos

/-- C6 witness at concrete inputs. -/
theorem claim_C6_witness :
    Fracao.add ⟨1, 2⟩ ⟨1, 4⟩ = some (Fracao.iadd ⟨1, 2⟩ ⟨1, 4⟩) ∧
    Fracao.Canonical (Fracao.iadd ⟨1, 2⟩ ⟨1, 4⟩) :=
  claim_C6 ⟨1, 2⟩ ⟨1, 4⟩ (by decide) (by decide)

open Fracao in
/-- C7: display is "0" on a zero numerator, the bare numerator on
denominator 1, and num/den otherwise; create(1,-2) displays -1/2,
create(5,10) displays 1/2, create(8,4) displays 2. -/
theorem claim_C7 (f : Fracao) :
    (f.num = 0 → toStr f = "0") ∧
    (f.num ≠ 0 → f.den = 1 → toStr f = toString f.num) ∧
    (f.num ≠ 0 → f.den ≠ 1 → toStr f = toString f.num ++ "/" ++ toString f.den) ∧
    (init 1 (-2)).map toStr = some "-1/2" ∧
    (init 5 10).map toStr = some "1/2" ∧
    (init 8 4).map toStr = some "2" := by
  refine ⟨?_, ?_, ?_, ?_, ?_, ?_⟩
  · intro h
    simp [toStr, h]
  · intro h h1
    simp [toStr, h, h1]
  · intro h h1
    simp [toStr, h, h1]
  · have e : init 1 (-2) = some ⟨-1, 2⟩ := by
      simp [init, simplifica, mdc, mdcLoop_gcd]
    rw [e]
    rfl
  · have e : init 5 10 = some ⟨1, 2⟩ := by
      simp [init, simplifica, mdc, mdcLoop_gcd]
    rw [e]
    rfl
  · have e : init 8 4 = some ⟨2, 1⟩ := by
      simp [init, simplifica, mdc, mdcLoop_gcd]
    rw [e]
    rfl

/-- C7 witness at a concrete input. -/
theorem claim_C7_witness :
    ((⟨3, 2⟩ : Fracao).num = 0 → Fracao.toStr ⟨3, 2⟩ = "0") ∧
    ((⟨3, 2⟩ : Fracao).num ≠ 0 → (⟨3, 2⟩ : Fracao).den = 1 →
      Fracao.toStr ⟨3, 2⟩ = toString (⟨3, 2⟩ : Fracao).num) ∧
    ((⟨3, 2⟩ : Fracao).num ≠ 0 → (⟨3, 2⟩ : Fracao).den ≠ 1 →
      Fracao.toStr ⟨3, 2⟩ =
        toString (⟨3, 2⟩ : Fracao).num ++ "/" ++ toString (⟨3, 2⟩ : Fracao).den) ∧
    (Fracao.init 1 (-2)).map Fracao.toStr = some "-1/2" ∧
    (Fracao.init 5 10).map Fracao.toStr = some "1/2" ∧
    (Fracao.init 8 4).map Fracao.toStr = some "2" :=
  claim_C7 ⟨3, 2⟩

open Fracao in
/-- C8: the literal arithmetic scenario with f1 = create(1,2) and
f2 = create(1,4): add displays 3/4, subtract displays 1/4, multiplying the
sum by f2 displays 3/16, dividing the sum by f2 displays 3. -/
theorem claim_C8 :
    init 1 2 = some ⟨1, 2⟩ ∧
    init 1 4 = some ⟨1, 4⟩ ∧
    (add ⟨1, 2⟩ ⟨1, 4⟩).map toStr = some "3/4" ∧
    (sub ⟨1, 2⟩ ⟨1, 4⟩).map toStr = some "1/4" ∧
    ((add ⟨1, 2⟩ ⟨1, 4⟩).bind (fun s => mul s ⟨1, 4⟩)).map toStr = some "3/16" ∧
    ((add ⟨1, 2⟩ ⟨1, 4⟩).bind (fun s => div s ⟨1, 4⟩)).map toStr = some "3" := by
  have eadd : add ⟨1, 2⟩ ⟨1, 4⟩ = some ⟨3, 4⟩ := by
    simp [add, init, simplifica, mdc, mdcLoop_gcd]
  refine ⟨?_, ?_, ?_, ?_, ?_, ?_⟩
  · simp [init, simplifica, mdc, mdcLoop_gcd]
  · simp [init, simplifica, mdc, mdcLoop_gcd]
  · rw [eadd]
    rfl
  · have e : sub ⟨1, 2⟩ ⟨1, 4⟩ = some ⟨1, 4⟩ := by
      simp [sub, init, simplifica, mdc, mdcLoop_gcd]
    rw [e]
    rfl
  · rw [eadd]
    have e : mul ⟨3, 4⟩ ⟨1, 4⟩ = some ⟨3, 16⟩ := by
      simp [mul, init, simplifica, mdc, mdcLoop_gcd]
    show (mul ⟨3, 4⟩ ⟨1, 4⟩).map toStr = some "3/16"
    rw [e]
    rfl
  · rw [eadd]
    have e : div ⟨3, 4⟩ ⟨1, 4⟩ = some ⟨3, 1⟩ := by
      simp [div, init, simplifica, mdc, mdcLoop_gcd]
    show (div ⟨3, 4⟩ ⟨1, 4⟩).map toStr = some "3"
    rw [e]
    rfl

open Fracao in
/-- C9: addition of two canonical values is commutative, and the two sums
are equal values in the sense of the eq operation. -/
theorem claim_C9 (a b : Fracao) (ha : Canonical a) (hb : Canonical b) :
    add a b = add b a ∧
    ∃ x y, add a b = some x ∧ add b a = some y ∧ Fracao.eq x y = true := by
  have hcomm : add a b = add b a := by
    unfold Fracao.add
    rw [show a.num * b.den + a.den * b.num = b.num * a.den + b.den * a.num from by ring,
      show a.den * b.den = b.den * a.den from by ring]
  refine ⟨hcomm, ?_⟩
  obtain ⟨x, hx, _, _⟩ :=
    init_some (a.num * b.den + a.den * b.num) (a.den * b.den)
      (mul_ne_zero (ne_of_gt ha.1) (ne_of_gt hb.1))
  refine ⟨x, x, hx, by rw [← hcomm]; exact hx, ?_⟩
  simp [Fracao.eq]

/-- C9 witness at concrete inputs. -/
theorem claim_C9_witness :
    Fracao.add ⟨1, 2⟩ ⟨1, 4⟩ = Fracao.add ⟨1, 4⟩ ⟨1, 2⟩ ∧
    ∃ x y, Fracao.add ⟨1, 2⟩ ⟨1, 4⟩ = some x ∧ Fracao.add ⟨1, 4⟩ ⟨1, 2⟩ = some y ∧
      Fracao.eq x y = true :=
  claim_C9 ⟨1, 2⟩ ⟨1, 4⟩ (by decide) (by decide)

open Fracao in
/-- C10: dividing a canonical value by a non-zero canonical value and
multiplying the quotient back by the divisor returns exactly the original
fields, by uniqueness of the canonical form. -/
theorem claim_C10 (a b : Fracao) (ha : Canonical a) (hb : Canonical b)
    (hbn : b.num ≠ 0) :
    ∃ q, div a b = some q ∧ mul q b = some a := by
  obtain ⟨q, hq, hqc, hqcross⟩ :=
    init_some (a.num * b.den) (a.den * b.num) (mul_ne_zero (ne_of_gt ha.1) hbn)
  obtain ⟨r, hr, hrc, hrcross⟩ :=
    init_some (q.num * b.num) (q.den * b.den)
      (mul_ne_zero (ne_of_gt hqc.1) (ne_of_gt hb.1))
  have key : (r.num * a.den) * (q.den * b.den) = (a.num * r.den) * (q.den * b.den) := by
    linear_combination a.den * hrcross + r.den * hqcross
  have hcross : r.num * a.den = a.num * r.den :=
    mul_right_cancel₀ (mul_ne_zero (ne_of_gt hqc.1) (ne_of_gt hb.1)) key
  have hra : r = a := canonical_ext r a hrc ha hcross
  refine ⟨q, ?_, ?_⟩
  · rw [div, if_neg hbn]
    exact hq
  · rw [Fracao.mul]
    rw [hr, hra]

/-- C10 witness at concrete inputs. -/
theorem claim_C10_witness :
    ∃ q, Fracao.div ⟨1, 2⟩ ⟨1, 4⟩ = some q ∧ Fracao.mul q ⟨1, 4⟩ = some ⟨1, 2⟩ :=
  claim_C10 ⟨1, 2⟩ ⟨1, 4⟩ (by decide) (by decide) (by decide)
